import Mathlib

/-!
Shallow embedding of the thought-ledger core of the
`mcp-sequentialthinking-tools` server.

The embedded code is the `ToolAwareSequentialThinkingServer` class:
`validateThoughtData` (src/src/index.ts, lines 77-137), the
`processThought` pipeline (normalization, step aggregation, history push,
eviction, branch indexing, payload construction; src/src/index.ts lines
209-288 and 948-1034, src/unnamed/part_001 lines 173-257), the history
eviction `slice(-maxHistorySize)` (src/src/index.ts lines 969-975), the
branch index (a `Record<string, ThoughtData[]>`), and the tool catalog
(`getAvailableTools`, src/src/index.ts lines 49-51 and 761-763).

Untrusted input is a JSON-like value (`JValue`); JavaScript truthiness and
string coercion are modelled explicitly, since the source's guards
(`!data.thought`, `if (validatedInput.branch_from_thought && ...)`) are
truthiness tests on dynamically typed values.  JS numbers are modelled by
`Int`: every behaviour the claims exercise is in the integer fragment.
-/

/-- A JSON-like dynamic value, as delivered to the request handler. -/
inductive JValue where
  | jnull
  | jbool (b : Bool)
  | jnum (n : Int)
  | jstr (s : String)
  | jarr (elems : List JValue)
  | jobj (fields : List (String × JValue))
deriving Repr

/-- JavaScript truthiness of a value (`NaN` is outside the modelled
integer fragment; `undefined` is modelled as a missing key, see
`optTruthy`). -/
def truthy : JValue → Bool
  | .jnull => false
  | .jbool b => b
  | .jnum n => n != 0
  | .jstr s => s != ""
  | .jarr _ => true
  | .jobj _ => true

/-- Truthiness of a possibly-absent (`undefined`) value. -/
def optTruthy : Option JValue → Bool
  | none => false
  | some v => truthy v

mutual

/-- JavaScript `String(x)` coercion, used when a value is taken as a
property key (`this.branches[validatedInput.branch_id]`).  Arrays join
their elements' coercions with commas; objects coerce to
`[object Object]`.  Only the string case is reachable through typed
callers, but the cast in `validateThoughtData` makes the others
representable. -/
def jsToString : JValue → String
  | .jnull => "null"
  | .jbool b => if b then "true" else "false"
  | .jnum n => toString n
  | .jstr s => s
  | .jarr elems => String.intercalate "," (jsToStringList elems)
  | .jobj _ => "[object Object]"

def jsToStringList : List JValue → List String
  | [] => []
  | v :: rest => jsToString v :: jsToStringList rest

end

/-- Property lookup on the input object: `data.key`.  A missing key is
JavaScript `undefined`, modelled as `none`. -/
def jlookup (data : List (String × JValue)) (key : String) : Option JValue :=
  match data with
  | [] => none
  | (k, v) :: rest => if k = key then some v else jlookup rest key

/-- The validated thought record (`ThoughtData`, src/src/types.ts).
Required fields carry their checked types; optional fields are copied
from the input by an unchecked TypeScript cast, so they hold whatever
dynamic value (if any) the input carried. -/
structure ThoughtData where
  thought : String
  thought_number : Int
  total_thoughts : Int
  next_thought_needed : Bool
  is_revision : Option JValue
  revises_thought : Option JValue
  branch_from_thought : Option JValue
  branch_id : Option JValue
  needs_more_thoughts : Option JValue
  current_step : Option JValue
  previous_steps : Option (List JValue)
  remaining_steps : Option (List JValue)
deriving Repr, Inhabited

/-- The `current_step` intake (src/src/index.ts lines 118-120): the field
is copied (unchecked cast) only when truthy, otherwise left `undefined`. -/
def currentStepField (input : List (String × JValue)) : Option JValue :=
  match jlookup input "current_step" with
  | some v => if truthy v then some v else none
  | none => none

/-- The `previous_steps` / `remaining_steps` intake (src/src/index.ts
lines 122-134): when the field is truthy it must be an array (else the
field-specific error is thrown); a falsy or absent field is left
`undefined`. -/
def stepArrayField (input : List (String × JValue)) (key msg : String) :
    Except String (Option (List JValue)) :=
  match jlookup input key with
  | some v =>
    if truthy v then
      match v with
      | .jarr elems => .ok (some elems)
      | _ => .error msg
    else .ok none
  | none => .ok none

/-- `validateThoughtData` (src/src/index.ts, lines 77-137): required
fields are guarded by truthiness-plus-typeof tests thrown in source
order; `previous_steps` and `remaining_steps`, when truthy, must be
arrays; the other optional fields are copied unchecked. -/
def validateThoughtData (input : List (String × JValue)) :
    Except String ThoughtData :=
  match jlookup input "thought" with
  | some (.jstr thought) =>
    if thought = "" then .error "Invalid thought: must be a string" else
    match jlookup input "thought_number" with
    | some (.jnum thought_number) =>
      if thought_number = 0 then
        .error "Invalid thought_number: must be a number" else
      match jlookup input "total_thoughts" with
      | some (.jnum total_thoughts) =>
        if total_thoughts = 0 then
          .error "Invalid total_thoughts: must be a number" else
        match jlookup input "next_thought_needed" with
        | some (.jbool next_thought_needed) =>
          match stepArrayField input "previous_steps"
              "previous_steps must be an array" with
          | .error msg => .error msg
          | .ok previous_steps =>
            match stepArrayField input "remaining_steps"
                "remaining_steps must be an array" with
            | .error msg => .error msg
            | .ok remaining_steps =>
              .ok { thought := thought
                    thought_number := thought_number
                    total_thoughts := total_thoughts
                    next_thought_needed := next_thought_needed
                    is_revision := jlookup input "is_revision"
                    revises_thought := jlookup input "revises_thought"
                    branch_from_thought := jlookup input "branch_from_thought"
                    branch_id := jlookup input "branch_id"
                    needs_more_thoughts := jlookup input "needs_more_thoughts"
                    current_step := currentStepField input
                    previous_steps := previous_steps
                    remaining_steps := remaining_steps }
        | _ => .error "Invalid next_thought_needed: must be a boolean"
      | _ => .error "Invalid total_thoughts: must be a number"
    | _ => .error "Invalid thought_number: must be a number"
  | _ => .error "Invalid thought: must be a string"

/-- The `thought_number`/`total_thoughts` check of the Valibot
`SequentialThinkingSchema` (src/unnamed/part_000, lines 560-569):
`v.pipe(v.number(), v.minValue(1))`. -/
def valibotNumberMin1 : JValue → Bool
  | .jnum n => decide (1 ≤ n)
  | _ => false

/-- A tool descriptor (name, description, input-shape declaration). -/
structure Tool where
  name : String
  description : String
  inputSchema : JValue
deriving Repr

/-- The mutable fields of `ToolAwareSequentialThinkingServer`
(src/src/index.ts lines 755-759): the thought history, the branch index
(a `Record` preserving insertion order, modelled as an association
list), the tool catalog (`Map`, insertion-ordered), and the configured
`maxHistorySize`. -/
structure ServerState where
  thought_history : List ThoughtData
  branches : List (String × List ThoughtData)
  available_tools : List (String × Tool)
  maxHistorySize : Nat
deriving Repr

/-- `history.slice(-k)` as applied by the eviction code: for `k > 0` it
keeps the last `k` elements; `slice(-0)` is `slice(0)`, the whole
array. -/
def sliceLast (l : List α) (k : Nat) : List α :=
  if k = 0 then l else l.drop (l.length - k)

/-- The eviction step (src/src/index.ts lines 971-975, src/unnamed/part_001
lines 194-198): trim the history to the most recent `maxHistorySize`
entries whenever it exceeds that bound. -/
def trimHistory (history : List ThoughtData) (maxHistorySize : Nat) :
    List ThoughtData :=
  if history.length > maxHistorySize then sliceLast history maxHistorySize
  else history

/-- `this.branches[key].push(record)`, creating the sequence if absent
(src/src/index.ts lines 236-239); a new key lands at the end, in
insertion order. -/
def pushBranch (branches : List (String × List ThoughtData)) (key : String)
    (td : ThoughtData) : List (String × List ThoughtData) :=
  match branches with
  | [] => [(key, [td])]
  | (k, l) :: rest =>
    if k = key then (k, l ++ [td]) :: rest
    else (k, l) :: pushBranch rest key td

/-- Association-list lookup on the branch index. -/
def lookupBranch (branches : List (String × List ThoughtData))
    (key : String) : Option (List ThoughtData) :=
  match branches with
  | [] => none
  | (k, l) :: rest => if k = key then some l else lookupBranch rest key

/-- The `total_thoughts` normalization (src/src/index.ts lines 216-220):
raise `total_thoughts` to `thought_number` when exceeded. -/
def normalizeTotal (v : ThoughtData) : ThoughtData :=
  if v.thought_number > v.total_thoughts then
    { v with total_thoughts := v.thought_number }
  else v

/-- The step aggregation (src/src/index.ts lines 222-228): when the
record carries a (truthy) `current_step`, initialize `previous_steps` to
`[]` if absent and push the current step onto it. -/
def aggregateStep (v : ThoughtData) : ThoughtData :=
  match v.current_step with
  | some c =>
    if truthy c then
      { v with previous_steps := some (v.previous_steps.getD [] ++ [c]) }
    else v
  | none => v

/-- The record as it is stored in the ledger: the validated record after
`total_thoughts` normalization and step aggregation.  For an input that
fails validation the value is irrelevant (`default`). -/
def recordOf (input : List (String × JValue)) : ThoughtData :=
  match validateThoughtData input with
  | .ok v => aggregateStep (normalizeTotal v)
  | .error _ => default

/-- The success payload of `processThought` (src/src/index.ts lines
245-266, with eviction also lines 990-1012). -/
structure SuccessPayload where
  thought_number : Int
  total_thoughts : Int
  next_thought_needed : Bool
  branches : List String
  thought_history_length : Nat
  current_step : Option JValue
  previous_steps : Option (List JValue)
  remaining_steps : Option (List JValue)
deriving Repr

/-- The failure payload (src/src/index.ts lines 267-287): an error
message plus the fixed status marker. -/
structure FailurePayload where
  error : String
  status : String
deriving Repr

/-- Result of one `processThought` call. -/
inductive ProcessResult where
  | ok (payload : SuccessPayload)
  | err (payload : FailurePayload)
deriving Repr

/-- The branch-indexing step (src/src/index.ts lines 232-240,
src/unnamed/part_001 lines 200-208): when both `branch_from_thought` and
`branch_id` are truthy, push the record onto `branches[branch_id]`
(the key being the JS string coercion of `branch_id`); otherwise leave
the index alone. -/
def updateBranches (branches : List (String × List ThoughtData))
    (v : ThoughtData) : List (String × List ThoughtData) :=
  match v.branch_id with
  | some bidv =>
    if optTruthy v.branch_from_thought && truthy bidv then
      pushBranch branches (jsToString bidv) v
    else branches
  | none => branches

/-- `processThought` (src/src/index.ts lines 948-1034, src/unnamed/part_001
lines 173-257) as a state transition: validate; normalize
`total_thoughts`; aggregate the current step into `previous_steps`; push
to history; evict; index the branch; build the payload.  A validation
failure short-circuits to a failure payload with the state untouched. -/
def processThought (s : ServerState) (input : List (String × JValue)) :
    ServerState × ProcessResult :=
  match validateThoughtData input with
  | .error msg => (s, .err { error := msg, status := "failed" })
  | .ok v0 =>
    let v := aggregateStep (normalizeTotal v0)
    let history := trimHistory (s.thought_history ++ [v]) s.maxHistorySize
    let branches := updateBranches s.branches v
    ({ s with thought_history := history, branches := branches },
     .ok { thought_number := v.thought_number
           total_thoughts := v.total_thoughts
           next_thought_needed := v.next_thought_needed
           branches := branches.map (fun kv => kv.1)
           thought_history_length := history.length
           current_step := v.current_step
           previous_steps := v.previous_steps
           remaining_steps := v.remaining_steps })

/-- `getAvailableTools` (src/src/index.ts lines 49-51 and 761-763):
`Array.from(this.available_tools.values())`. -/
def getAvailableTools (s : ServerState) : List Tool :=
  s.available_tools.map (fun kv => kv.2)

/-- The tool-catalog listing as observed through the transport
(src/src/index.ts lines 1049-1051): it returns the descriptors and
leaves the server state untouched. -/
def listToolsOp (s : ServerState) : List Tool × ServerState :=
  (getAvailableTools s, s)

/-- A fresh server (constructor, src/src/index.ts lines 765-789, with
`this.maxHistorySize = options.maxHistorySize || 1000`): empty history
and branch index; a falsy (absent or zero) size option falls back to
1000. -/
def initServer (tools : List (String × Tool)) (sizeOption : Option Nat) :
    ServerState :=
  { thought_history := []
    branches := []
    available_tools := tools
    maxHistorySize := if sizeOption.getD 0 = 0 then 1000 else sizeOption.getD 0 }

/-- Processing a whole request sequence, threading the state. -/
def processAll (s : ServerState) (inputs : List (List (String × JValue))) :
    ServerState :=
  inputs.foldl (fun st i => (processThought st i).1) s

/-- Whether `validateThoughtData` accepts the input. -/
def acceptedInput (input : List (String × JValue)) : Bool :=
  match validateThoughtData input with
  | .ok _ => true
  | .error _ => false

theorem currentStepField_truthy (input : List (String × JValue)) (c : JValue)
    (h : currentStepField input = some c) : truthy c = true := by
  unfold currentStepField at h
  split at h
  case _ w hw =>
    split at h
    · injection h with h; subst h; assumption
    · exact absurd h (by simp)
  · exact absurd h (by simp)

theorem validateThoughtData_fields (input : List (String × JValue)) (v : ThoughtData)
    (hv : validateThoughtData input = .ok v) :
    v.branch_id = jlookup input "branch_id" ∧
    v.branch_from_thought = jlookup input "branch_from_thought" ∧
    v.current_step = currentStepField input ∧
    jlookup input "thought_number" = some (.jnum v.thought_number) ∧
    jlookup input "total_thoughts" = some (.jnum v.total_thoughts) ∧
    v.thought_number ≠ 0 ∧ v.total_thoughts ≠ 0 ∧
    jlookup input "thought" = some (.jstr v.thought) ∧ v.thought ≠ "" ∧
    jlookup input "next_thought_needed" = some (.jbool v.next_thought_needed) := by
  unfold validateThoughtData at hv
  split at hv
  case _ th hth =>
    split at hv
    · exact absurd hv (by simp)
    case _ hne =>
      split at hv
      case _ tn htn =>
        split at hv
        · exact absurd hv (by simp)
        case _ hne2 =>
          split at hv
          case _ tt htt =>
            split at hv
            · exact absurd hv (by simp)
            case _ hne3 =>
              split at hv
              case _ nb hnb =>
                split at hv
                · exact absurd hv (by simp)
                case _ ps hps =>
                  split at hv
                  · exact absurd hv (by simp)
                  case _ rs hrs =>
                    injection hv with hv
                    subst hv
                    exact ⟨rfl, rfl, rfl, by rw [htn], by rw [htt], hne2, hne3,
                      by rw [hth], hne, by rw [hnb]⟩
              · exact absurd hv (by simp)
          · exact absurd hv (by simp)
      · exact absurd hv (by simp)
  · exact absurd hv (by simp)

@[simp] theorem normalizeTotal_total (v : ThoughtData) :
    (normalizeTotal v).total_thoughts = max v.thought_number v.total_thoughts := by
  unfold normalizeTotal
  split <;> simp <;> omega

@[simp] theorem normalizeTotal_fields (v : ThoughtData) :
    (normalizeTotal v).thought_number = v.thought_number ∧
    (normalizeTotal v).next_thought_needed = v.next_thought_needed ∧
    (normalizeTotal v).branch_id = v.branch_id ∧
    (normalizeTotal v).branch_from_thought = v.branch_from_thought ∧
    (normalizeTotal v).current_step = v.current_step ∧
    (normalizeTotal v).previous_steps = v.previous_steps ∧
    (normalizeTotal v).remaining_steps = v.remaining_steps := by
  unfold normalizeTotal
  split <;> exact ⟨rfl, rfl, rfl, rfl, rfl, rfl, rfl⟩

@[simp] theorem aggregateStep_fields (v : ThoughtData) :
    (aggregateStep v).thought_number = v.thought_number ∧
    (aggregateStep v).total_thoughts = v.total_thoughts ∧
    (aggregateStep v).next_thought_needed = v.next_thought_needed ∧
    (aggregateStep v).branch_id = v.branch_id ∧
    (aggregateStep v).branch_from_thought = v.branch_from_thought ∧
    (aggregateStep v).current_step = v.current_step ∧
    (aggregateStep v).remaining_steps = v.remaining_steps := by
  unfold aggregateStep
  split
  · split <;> exact ⟨rfl, rfl, rfl, rfl, rfl, rfl, rfl⟩
  · exact ⟨rfl, rfl, rfl, rfl, rfl, rfl, rfl⟩

theorem aggregateStep_previous_steps (v : ThoughtData) (c : JValue)
    (hc : v.current_step = some c) (ht : truthy c = true) :
    (aggregateStep v).previous_steps = some (v.previous_steps.getD [] ++ [c]) := by
  unfold aggregateStep
  rw [hc]
  simp [ht]

theorem aggregateStep_previous_steps_none (v : ThoughtData)
    (hc : v.current_step = none) :
    (aggregateStep v).previous_steps = v.previous_steps := by
  unfold aggregateStep
  rw [hc]

theorem trimHistory_eq_sliceLast (l : List ThoughtData) (k : Nat) :
    trimHistory l k = sliceLast l k := by
  unfold trimHistory sliceLast
  by_cases hk : k = 0
  · simp [hk]
  · by_cases hl : l.length > k
    · simp [hl, hk]
    · have h0 : l.length - k = 0 := by omega
      simp [hl, hk, h0]

theorem sliceLast_idem (l : List ThoughtData) (k : Nat) :
    sliceLast (sliceLast l k) k = sliceLast l k := by
  unfold sliceLast
  by_cases hk : k = 0
  · simp [hk]
  · by_cases hl : l.length ≤ k
    · have h0 : l.length - k = 0 := by omega
      simp [hk, h0]
    · have hlen : (l.drop (l.length - k)).length = k := by
        rw [List.length_drop]; omega
      simp [hk, hlen]

theorem sliceLast_append_single (l : List ThoughtData) (x : ThoughtData) (k : Nat) :
    sliceLast (sliceLast l k ++ [x]) k = sliceLast (l ++ [x]) k := by
  unfold sliceLast
  by_cases hk : k = 0
  · simp [hk]
  · simp only [hk, if_neg, ite_false]
    by_cases hl : l.length < k
    · have h0 : l.length - k = 0 := by omega
      have h1 : l.length + 1 - k = 0 := by omega
      simp [h0, h1]
    · have hlen : (l.drop (l.length - k)).length = k := by
        rw [List.length_drop]; omega
      have hd1 : l.length - k + 1 ≤ l.length := by omega
      calc (l.drop (l.length - k) ++ [x]).drop ((l.drop (l.length - k) ++ [x]).length - k)
          = (l.drop (l.length - k) ++ [x]).drop 1 := by
            congr 1
            simp [hlen]
        _ = (l.drop (l.length - k)).drop 1 ++ [x] := by
            apply List.drop_append_of_le_length
            omega
        _ = l.drop (l.length - k + 1) ++ [x] := by rw [List.drop_drop]
        _ = l.drop (l.length + 1 - k) ++ [x] := by
            congr 2
            omega
        _ = (l ++ [x]).drop (l.length + 1 - k) := by
            rw [List.drop_append_of_le_length (by omega)]
        _ = (l ++ [x]).drop ((l ++ [x]).length - k) := by
            congr 1
            simp

theorem trimHistory_append_getLast (h : List ThoughtData) (x : ThoughtData)
    (k : Nat) : (trimHistory (h ++ [x]) k).getLast? = some x := by
  rw [trimHistory_eq_sliceLast]
  unfold sliceLast
  by_cases hk : k = 0
  · simp [hk]
  · rw [if_neg hk]
    have hle : (h ++ [x]).length - k ≤ h.length := by
      simp only [List.length_append, List.length_singleton]
      omega
    rw [List.drop_append_of_le_length hle]
    exact List.getLast?_concat _

theorem lookupBranch_pushBranch_self (br : List (String × List ThoughtData))
    (key : String) (td : ThoughtData) :
    lookupBranch (pushBranch br key td) key =
      some ((lookupBranch br key).getD [] ++ [td]) := by
  induction br with
  | nil => simp [pushBranch, lookupBranch]
  | cons kv rest ih =>
    obtain ⟨k, l⟩ := kv
    by_cases hk : k = key
    · subst hk; simp [pushBranch, lookupBranch]
    · simp [pushBranch, lookupBranch, hk, ih]

theorem lookupBranch_pushBranch_ne (br : List (String × List ThoughtData))
    (key key' : String) (td : ThoughtData) (h : key' ≠ key) :
    lookupBranch (pushBranch br key td) key' = lookupBranch br key' := by
  induction br with
  | nil => simp [pushBranch, lookupBranch, Ne.symm h]
  | cons kv rest ih =>
    obtain ⟨k, l⟩ := kv
    by_cases hk : k = key
    · subst hk; simp [pushBranch, lookupBranch, Ne.symm h]
    · by_cases hk' : k = key'
      · subst hk'; simp [pushBranch, lookupBranch, hk]
      · simp [pushBranch, lookupBranch, hk, hk', ih]

theorem mem_keys_pushBranch (br : List (String × List ThoughtData))
    (key : String) (td : ThoughtData) :
    key ∈ (pushBranch br key td).map (fun kv => kv.1) := by
  induction br with
  | nil => simp [pushBranch]
  | cons kv rest ih =>
    obtain ⟨k, l⟩ := kv
    unfold pushBranch
    by_cases hk : k = key
    · subst hk; simp
    · rw [if_neg hk]; simp only [List.map_cons, List.mem_cons]; right; exact ih

theorem processThought_err (s : ServerState) (input : List (String × JValue))
    (msg : String) (hv : validateThoughtData input = .error msg) :
    processThought s input = (s, .err { error := msg, status := "failed" }) := by
  simp [processThought, hv]

theorem recordOf_ok (input : List (String × JValue)) (v : ThoughtData)
    (hv : validateThoughtData input = .ok v) :
    recordOf input = aggregateStep (normalizeTotal v) := by
  simp [recordOf, hv]

theorem processThought_ok (s : ServerState) (input : List (String × JValue))
    (v : ThoughtData) (hv : validateThoughtData input = .ok v) :
    processThought s input =
      ({ s with
          thought_history :=
            trimHistory (s.thought_history ++ [recordOf input]) s.maxHistorySize,
          branches := updateBranches s.branches (recordOf input) },
       .ok { thought_number := (recordOf input).thought_number
             total_thoughts := (recordOf input).total_thoughts
             next_thought_needed := (recordOf input).next_thought_needed
             branches :=
               (updateBranches s.branches (recordOf input)).map (fun kv => kv.1)
             thought_history_length :=
               (trimHistory (s.thought_history ++ [recordOf input])
                 s.maxHistorySize).length
             current_step := (recordOf input).current_step
             previous_steps := (recordOf input).previous_steps
             remaining_steps := (recordOf input).remaining_steps }) := by
  rw [recordOf_ok input v hv]
  simp [processThought, hv]

theorem processThought_ok_inv (s : ServerState) (input : List (String × JValue))
    (s' : ServerState) (p : SuccessPayload)
    (hp : processThought s input = (s', .ok p)) :
    ∃ v, validateThoughtData input = .ok v := by
  unfold processThought at hp
  split at hp
  · exact absurd (congrArg Prod.snd hp) (by simp)
  case _ v0 hv0 => exact ⟨v0, hv0⟩

theorem updateBranches_skip (br : List (String × List ThoughtData))
    (v : ThoughtData)
    (h : optTruthy v.branch_from_thought = false ∨ optTruthy v.branch_id = false) :
    updateBranches br v = br := by
  unfold updateBranches
  split
  case _ bidv hb =>
    rcases h with h | h
    · simp [h]
    · rw [hb] at h
      simp only [optTruthy] at h
      simp [h]
  · rfl

theorem updateBranches_push (br : List (String × List ThoughtData))
    (v : ThoughtData) (bidv : JValue)
    (hb : v.branch_id = some bidv) (ht : truthy bidv = true)
    (hf : optTruthy v.branch_from_thought = true) :
    updateBranches br v = pushBranch br (jsToString bidv) v := by
  unfold updateBranches
  rw [hb]
  simp [ht, hf]

theorem acceptedInput_ok (input : List (String × JValue))
    (h : acceptedInput input = true) :
    ∃ v, validateThoughtData input = .ok v := by
  unfold acceptedInput at h
  split at h
  case _ v hv => exact ⟨v, hv⟩
  · exact absurd h (by simp)

theorem processAll_history (inputs : List (List (String × JValue))) :
    ∀ (s : ServerState),
      (∀ i ∈ inputs, acceptedInput i = true) →
      sliceLast s.thought_history s.maxHistorySize = s.thought_history →
      (processAll s inputs).thought_history =
        sliceLast (s.thought_history ++ inputs.map recordOf) s.maxHistorySize ∧
      (processAll s inputs).maxHistorySize = s.maxHistorySize := by
  induction inputs using List.reverseRecOn with
  | nil =>
    intro s hval hbound
    exact ⟨by simpa [processAll] using hbound.symm, rfl⟩
  | append_singleton rest i ih =>
    intro s hval hbound
    have hval' : ∀ j ∈ rest, acceptedInput j = true := by
      intro j hj
      exact hval j (by simp [hj])
    have hvi : acceptedInput i = true := hval i (by simp)
    obtain ⟨hh, hm⟩ := ih s hval' hbound
    obtain ⟨v, hv⟩ := acceptedInput_ok i hvi
    have hstep : processAll s (rest ++ [i]) =
        (processThought (processAll s rest) i).1 := by
      simp [processAll, List.foldl_append]
    rw [hstep, processThought_ok _ i v hv]
    refine ⟨?_, hm⟩
    show trimHistory ((processAll s rest).thought_history ++ [recordOf i])
        (processAll s rest).maxHistorySize = _
    rw [hm, hh, trimHistory_eq_sliceLast, sliceLast_append_single]
    rw [List.map_append, List.map_singleton, List.append_assoc]

/-- The guard pattern of the four required-field checks in
`validateThoughtData` (src/src/index.ts lines 80-99): `thought` must be a
truthy string, `thought_number` and `total_thoughts` truthy numbers,
`next_thought_needed` a boolean; this predicate holds exactly when at
least one of those checks would throw (the field is missing or
wrong-shaped). -/
def requiredFieldBad (input : List (String × JValue)) : Bool :=
  (match jlookup input "thought" with
   | some (.jstr s) => s == ""
   | _ => true) ||
  (match jlookup input "thought_number" with
   | some (.jnum n) => n == 0
   | _ => true) ||
  (match jlookup input "total_thoughts" with
   | some (.jnum n) => n == 0
   | _ => true) ||
  (match jlookup input "next_thought_needed" with
   | some (.jbool _) => false
   | _ => true)

theorem validate_error_of_requiredFieldBad (input : List (String × JValue))
    (h : requiredFieldBad input = true) :
    ∃ msg, validateThoughtData input = .error msg := by
  cases hres : validateThoughtData input with
  | error msg => exact ⟨msg, rfl⟩
  | ok v =>
    exfalso
    obtain ⟨-, -, -, htn, htt, h1, h2, hth, hne, hnb⟩ :=
      validateThoughtData_fields input v hres
    unfold requiredFieldBad at h
    rw [hth, htn, htt, hnb] at h
    simp [hne, h1, h2] at h

/-- C3: an input whose required field (`thought`, `thought_number`,
`total_thoughts`, or `next_thought_needed`) is missing or wrong-shaped
makes `processThought` return a failure payload carrying an error message
and the status marker `failed`, and leaves the whole ledger state —
history and branches — exactly as it was. -/
theorem c3_invalid_input_fails_without_mutation (s : ServerState)
    (input : List (String × JValue)) (h : requiredFieldBad input = true) :
    ∃ msg, processThought s input =
      (s, .err { error := msg, status := "failed" }) := by
  obtain ⟨msg, hmsg⟩ := validate_error_of_requiredFieldBad input h
  exact ⟨msg, processThought_err s input msg hmsg⟩

/-- C3 witness: the empty input object is rejected and the initial state
survives unchanged. -/
theorem c3_invalid_input_fails_without_mutation_witness :
    ∃ msg, processThought (initServer [] none) [] =
      (initServer [] none, .err { error := msg, status := "failed" }) :=
  c3_invalid_input_fails_without_mutation (initServer [] none) [] rfl

/-- C9: the tool-catalog listing is an idempotent read: calling it twice
returns identical descriptor lists, and a call leaves every part of the
server state (catalog, history, branches) untouched. -/
theorem c9_tool_catalog_idempotent (s : ServerState) :
    (listToolsOp s).1 = (listToolsOp (listToolsOp s).2).1 ∧
    (listToolsOp s).2 = s ∧
    (listToolsOp (listToolsOp s).2).2 = s :=
  ⟨rfl, rfl, rfl⟩

/-- The C6 counterexample input: a well-formed record whose
`thought_number` is the number `-1`. -/
def c6Input : List (String × JValue) :=
  [("thought", .jstr "a"), ("thought_number", .jnum (-1)),
   ("total_thoughts", .jnum 3), ("next_thought_needed", .jbool true)]

/-- The record `validateThoughtData` produces for `c6Input`. -/
def c6Record : ThoughtData :=
  { thought := "a", thought_number := -1, total_thoughts := 3,
    next_thought_needed := true, is_revision := none,
    revises_thought := none, branch_from_thought := none,
    branch_id := none, needs_more_thoughts := none, current_step := none,
    previous_steps := none, remaining_steps := none }

/-- C6 counterexample: `validateThoughtData` accepts `thought_number = -1`,
a number below 1, so numbers below 1 are not uniformly rejected with a
validation error. -/
theorem c6_counterexample_negative_accepted :
    validateThoughtData c6Input = .ok c6Record ∧
    c6Record.thought_number < 1 :=
  ⟨rfl, by norm_num [c6Record]⟩

/-- C6 (amended): `validateThoughtData` guarantees only that an accepted
record's `thought_number` and `total_thoughts` are nonzero numbers (zero
is rejected as falsy, negative numbers pass); the `≥ 1` lower bound is
enforced only by the Valibot schema check of the tmcp variant. -/
theorem c6_amended_validator_nonzero_schema_min1
    (input : List (String × JValue)) (v : ThoughtData)
    (hv : validateThoughtData input = .ok v) :
    v.thought_number ≠ 0 ∧ v.total_thoughts ≠ 0 ∧
    (valibotNumberMin1 (.jnum v.thought_number) = true ↔
      1 ≤ v.thought_number) ∧
    (valibotNumberMin1 (.jnum v.total_thoughts) = true ↔
      1 ≤ v.total_thoughts) := by
  obtain ⟨-, -, -, -, -, h1, h2, -, -, -⟩ :=
    validateThoughtData_fields input v hv
  refine ⟨h1, h2, ?_, ?_⟩ <;> simp [valibotNumberMin1]

/-- C6 witness: the amended statement instantiated at the accepted
`thought_number = -1` input. -/
theorem c6_amended_validator_nonzero_schema_min1_witness :
    c6Record.thought_number ≠ 0 ∧ c6Record.total_thoughts ≠ 0 ∧
    (valibotNumberMin1 (.jnum c6Record.thought_number) = true ↔
      1 ≤ c6Record.thought_number) ∧
    (valibotNumberMin1 (.jnum c6Record.total_thoughts) = true ↔
      1 ≤ c6Record.total_thoughts) :=
  c6_amended_validator_nonzero_schema_min1 c6Input c6Record rfl

/-- C1: on a successful call, both the returned and the stored
`total_thoughts` equal `max thought_number total_thoughts` of the
validated input — i.e. they are raised to `thought_number` exactly when
`thought_number` exceeds `total_thoughts`, and unchanged otherwise — and
the stored record keeps the input's `thought_number`. -/
theorem c1_total_thoughts_normalized (s : ServerState)
    (input : List (String × JValue)) (v : ThoughtData) (s' : ServerState)
    (p : SuccessPayload) (hv : validateThoughtData input = .ok v)
    (hp : processThought s input = (s', .ok p)) :
    p.total_thoughts = max v.thought_number v.total_thoughts ∧
    ∃ r, s'.thought_history.getLast? = some r ∧
      r.total_thoughts = max v.thought_number v.total_thoughts ∧
      r.thought_number = v.thought_number := by
  rw [processThought_ok s input v hv] at hp
  injection hp with hs' hp2
  injection hp2 with hp2
  subst hs'
  subst hp2
  refine ⟨?_, recordOf input, trimHistory_append_getLast _ _ _, ?_, ?_⟩ <;>
    simp [recordOf_ok input v hv]

/-- Input for the C1 witness: `thought_number = 4` exceeds
`total_thoughts = 3`. -/
def c1Input : List (String × JValue) :=
  [("thought", .jstr "t"), ("thought_number", .jnum 4),
   ("total_thoughts", .jnum 3), ("next_thought_needed", .jbool true)]

/-- The record `validateThoughtData` produces for `c1Input`. -/
def c1Record : ThoughtData :=
  { thought := "t", thought_number := 4, total_thoughts := 3,
    next_thought_needed := true, is_revision := none,
    revises_thought := none, branch_from_thought := none,
    branch_id := none, needs_more_thoughts := none, current_step := none,
    previous_steps := none, remaining_steps := none }

/-- The success payload `processThought` returns for `c1Input` on a fresh
server: `total_thoughts` has been raised to 4. -/
def c1Payload : SuccessPayload :=
  { thought_number := 4, total_thoughts := 4, next_thought_needed := true,
    branches := [], thought_history_length := 1, current_step := none,
    previous_steps := none, remaining_steps := none }

/-- C1 witness: the normalization observed at the concrete
`thought_number = 4 > total_thoughts = 3` input. -/
theorem c1_total_thoughts_normalized_witness :
    c1Payload.total_thoughts = max c1Record.thought_number c1Record.total_thoughts ∧
    ∃ r, (processThought (initServer [] none) c1Input).1.thought_history.getLast?
        = some r ∧
      r.total_thoughts = max c1Record.thought_number c1Record.total_thoughts ∧
      r.thought_number = c1Record.thought_number :=
  c1_total_thoughts_normalized (initServer [] none) c1Input c1Record
    (processThought (initServer [] none) c1Input).1 c1Payload rfl rfl

/-- C2: (a) after every successful call, the new history is exactly the
old history plus the new record, trimmed to the most recent
`maxHistorySize` entries; (b) consequently, processing a sequence of
valid inputs on a fresh server configured with `max_history_size = k`
leaves exactly the last `k` stored records, in their original relative
order (all of them when there are at most `k`). -/
theorem c2_eviction_keeps_most_recent :
    (∀ (s : ServerState) (input : List (String × JValue))
       (s' : ServerState) (p : SuccessPayload),
       processThought s input = (s', .ok p) →
       s'.thought_history =
         sliceLast (s.thought_history ++ [recordOf input]) s.maxHistorySize) ∧
    (∀ (tools : List (String × Tool)) (k : Nat)
       (inputs : List (List (String × JValue))), 1 ≤ k →
       (∀ i ∈ inputs, acceptedInput i = true) →
       (processAll (initServer tools (some k)) inputs).thought_history =
         (inputs.map recordOf).drop (inputs.length - k)) := by
  constructor
  · intro s input s' p hp
    obtain ⟨v, hv⟩ := processThought_ok_inv s input s' p hp
    rw [processThought_ok s input v hv] at hp
    injection hp with hs' hp2
    subst hs'
    exact trimHistory_eq_sliceLast _ _
  · intro tools k inputs hk hval
    have hmax : (initServer tools (some k)).maxHistorySize = k := by
      unfold initServer
      simp only [Option.getD_some]
      rw [if_neg (by omega)]
    have hbound :
        sliceLast (initServer tools (some k)).thought_history
          (initServer tools (some k)).maxHistorySize =
          (initServer tools (some k)).thought_history := by
      simp [initServer, sliceLast]
    obtain ⟨hh, -⟩ := processAll_history inputs (initServer tools (some k)) hval hbound
    rw [hh, hmax]
    show sliceLast ([] ++ inputs.map recordOf) k = _
    rw [List.nil_append]
    unfold sliceLast
    rw [if_neg (by omega), List.length_map]

/-- A simple valid input carrying the given `thought_number`. -/
def mkNumberedInput (n : Int) : List (String × JValue) :=
  [("thought", .jstr "t"), ("thought_number", .jnum n),
   ("total_thoughts", .jnum 3), ("next_thought_needed", .jbool true)]

/-- C2 witness: three valid thoughts on a server with
`max_history_size = 2` leave exactly the last two records. -/
theorem c2_eviction_keeps_most_recent_witness :
    (processAll (initServer [] (some 2))
        [mkNumberedInput 1, mkNumberedInput 2, mkNumberedInput 3]).thought_history
      = ([mkNumberedInput 1, mkNumberedInput 2,
          mkNumberedInput 3].map recordOf).drop 1 :=
  c2_eviction_keeps_most_recent.2 [] 2
    [mkNumberedInput 1, mkNumberedInput 2, mkNumberedInput 3]
    (by omega) (by intro i hi; fin_cases hi <;> rfl)

/-- C4: on a successful call, the stored record's `previous_steps` is the
input's `previous_steps` (defaulted to the empty sequence if absent) with
the input's `current_step` appended — so it ends with the current step —
and is the input's `previous_steps` unchanged when no `current_step` is
carried. -/
theorem c4_current_step_appended (s : ServerState)
    (input : List (String × JValue)) (v : ThoughtData) (s' : ServerState)
    (p : SuccessPayload) (hv : validateThoughtData input = .ok v)
    (hp : processThought s input = (s', .ok p)) :
    ∃ r, s'.thought_history.getLast? = some r ∧
      r.previous_steps =
        (match v.current_step with
         | some c => some (v.previous_steps.getD [] ++ [c])
         | none => v.previous_steps) := by
  rw [processThought_ok s input v hv] at hp
  injection hp with hs' hp2
  subst hs'
  refine ⟨recordOf input, trimHistory_append_getLast _ _ _, ?_⟩
  rw [recordOf_ok input v hv]
  cases hc : v.current_step with
  | none =>
    rw [aggregateStep_previous_steps_none _ (by simp [hc])]
    simp
  | some c =>
    have hcs : v.current_step = currentStepField input :=
      (validateThoughtData_fields input v hv).2.2.1
    have ht : truthy c = true :=
      currentStepField_truthy input c (hcs ▸ hc)
    rw [aggregateStep_previous_steps (normalizeTotal v) c (by simp [hc]) ht]
    simp

/-- Input for the C4 witness: `previous_steps = [S0]` and
`current_step = S`. -/
def c4Input : List (String × JValue) :=
  [("thought", .jstr "s"), ("thought_number", .jnum 2),
   ("total_thoughts", .jnum 3), ("next_thought_needed", .jbool true),
   ("current_step", .jobj [("step_description", .jstr "S")]),
   ("previous_steps", .jarr [.jobj [("step_description", .jstr "S0")]])]

/-- The record `validateThoughtData` produces for `c4Input`. -/
def c4Record : ThoughtData :=
  { thought := "s", thought_number := 2, total_thoughts := 3,
    next_thought_needed := true, is_revision := none,
    revises_thought := none, branch_from_thought := none,
    branch_id := none, needs_more_thoughts := none,
    current_step := some (.jobj [("step_description", .jstr "S")]),
    previous_steps := some [.jobj [("step_description", .jstr "S0")]],
    remaining_steps := none }

/-- C4 witness: processing prior steps `[S0]` with `current_step = S`
stores `previous_steps = [S0, S]`. -/
theorem c4_current_step_appended_witness :
    ∃ r, (processThought (initServer [] none) c4Input).1.thought_history.getLast?
        = some r ∧
      r.previous_steps =
        (match c4Record.current_step with
         | some c => some (c4Record.previous_steps.getD [] ++ [c])
         | none => c4Record.previous_steps) :=
  c4_current_step_appended (initServer [] none) c4Input c4Record
    (processThought (initServer [] none) c4Input).1
    { thought_number := 2, total_thoughts := 3, next_thought_needed := true,
      branches := [], thought_history_length := 1,
      current_step := some (.jobj [("step_description", .jstr "S")]),
      previous_steps := some [.jobj [("step_description", .jstr "S0")],
        .jobj [("step_description", .jstr "S")]],
      remaining_steps := none } rfl rfl

/-- C5: when a validated record carries a (truthy) numeric
`branch_from_thought` and a non-empty string `branch_id`, the same stored
record is pushed onto `branches[branch_id]` (created if absent), it also
remains the most recent entry of `history`, and the success payload's
branch list contains that `branch_id`. -/
theorem c5_branch_indexed (s : ServerState) (input : List (String × JValue))
    (v : ThoughtData) (s' : ServerState) (p : SuccessPayload)
    (n : Int) (b : String) (hv : validateThoughtData input = .ok v)
    (hbft : v.branch_from_thought = some (.jnum n)) (hn : n ≠ 0)
    (hbid : v.branch_id = some (.jstr b)) (hb : b ≠ "")
    (hp : processThought s input = (s', .ok p)) :
    ∃ r l, s'.thought_history.getLast? = some r ∧
      lookupBranch s'.branches b = some l ∧ l.getLast? = some r ∧
      b ∈ p.branches := by
  rw [processThought_ok s input v hv] at hp
  injection hp with hs' hp2
  injection hp2 with hp2
  subst hs'
  subst hp2
  have hwbid : (recordOf input).branch_id = some (.jstr b) := by
    rw [recordOf_ok input v hv]; simp [hbid]
  have hwbft : optTruthy (recordOf input).branch_from_thought = true := by
    rw [recordOf_ok input v hv]
    simp [hbft, optTruthy, truthy, hn]
  have htb : truthy (.jstr b) = true := by simp [truthy, hb]
  have hupd : updateBranches s.branches (recordOf input) =
      pushBranch s.branches b (recordOf input) := by
    have := updateBranches_push s.branches (recordOf input) (.jstr b)
      hwbid htb hwbft
    simpa [jsToString] using this
  refine ⟨recordOf input,
    (lookupBranch s.branches b).getD [] ++ [recordOf input],
    trimHistory_append_getLast _ _ _, ?_, ?_, ?_⟩
  · show lookupBranch (updateBranches s.branches (recordOf input)) b = _
    rw [hupd, lookupBranch_pushBranch_self]
  · exact List.getLast?_concat _
  · show b ∈ (updateBranches s.branches (recordOf input)).map (fun kv => kv.1)
    rw [hupd]
    exact mem_keys_pushBranch _ _ _

/-- Input for the C5 witness: `branch_from_thought = 3`,
`branch_id = "A"`. -/
def c5Input : List (String × JValue) :=
  [("thought", .jstr "b"), ("thought_number", .jnum 4),
   ("total_thoughts", .jnum 3), ("next_thought_needed", .jbool false),
   ("branch_from_thought", .jnum 3), ("branch_id", .jstr "A")]

/-- The record `validateThoughtData` produces for `c5Input`. -/
def c5Record : ThoughtData :=
  { thought := "b", thought_number := 4, total_thoughts := 3,
    next_thought_needed := false, is_revision := none,
    revises_thought := none, branch_from_thought := some (.jnum 3),
    branch_id := some (.jstr "A"), needs_more_thoughts := none,
    current_step := none, previous_steps := none, remaining_steps := none }

/-- C5 witness: the record with `branch_from_thought = 3`,
`branch_id = "A"` lands in `branches["A"]` and `"A"` is reported. -/
theorem c5_branch_indexed_witness :
    ∃ r l, (processThought (initServer [] none) c5Input).1.thought_history.getLast?
        = some r ∧
      lookupBranch (processThought (initServer [] none) c5Input).1.branches "A"
        = some l ∧
      l.getLast? = some r ∧
      "A" ∈ ({ thought_number := 4, total_thoughts := 4,
               next_thought_needed := false, branches := ["A"],
               thought_history_length := 1, current_step := none,
               previous_steps := none,
               remaining_steps := none : SuccessPayload }).branches :=
  c5_branch_indexed (initServer [] none) c5Input c5Record
    (processThought (initServer [] none) c5Input).1
    { thought_number := 4, total_thoughts := 4, next_thought_needed := false,
      branches := ["A"], thought_history_length := 1, current_step := none,
      previous_steps := none, remaining_steps := none }
    3 "A" rfl rfl (by norm_num) rfl (by simp) rfl

/-- C7: no call to `processThought` — in particular no eviction of the
history — ever removes a record from a branch sequence: every branch
sequence present before the call is a prefix of that branch's sequence
after the call.  Branch sequences can therefore keep records that
eviction has already dropped from `history`. -/
theorem c7_branches_never_pruned (s : ServerState)
    (input : List (String × JValue)) (bid : String) (l : List ThoughtData)
    (hl : lookupBranch s.branches bid = some l) :
    ∃ t, lookupBranch (processThought s input).1.branches bid =
      some (l ++ t) := by
  cases hres : validateThoughtData input with
  | error msg =>
    rw [processThought_err s input msg hres]
    exact ⟨[], by simpa using hl⟩
  | ok v =>
    rw [processThought_ok s input v hres]
    show ∃ t, lookupBranch (updateBranches s.branches (recordOf input)) bid
      = some (l ++ t)
    unfold updateBranches
    split
    case _ bidv hb =>
      by_cases hcond :
          (optTruthy (recordOf input).branch_from_thought && truthy bidv) = true
      · rw [if_pos hcond]
        by_cases hkey : bid = jsToString bidv
        · subst hkey
          rw [lookupBranch_pushBranch_self, hl]
          exact ⟨[recordOf input], rfl⟩
        · rw [lookupBranch_pushBranch_ne _ _ _ _ hkey]
          exact ⟨[], by simpa using hl⟩
      · rw [if_neg hcond]
        exact ⟨[], by simpa using hl⟩
    · exact ⟨[], by simpa using hl⟩

/-- A pre-existing record used by the C7 witness state. -/
def c7Rec : ThoughtData :=
  { thought := "r0", thought_number := 1, total_thoughts := 1,
    next_thought_needed := false, is_revision := none,
    revises_thought := none, branch_from_thought := none,
    branch_id := none, needs_more_thoughts := none, current_step := none,
    previous_steps := none, remaining_steps := none }

/-- A server whose history is full (`maxHistorySize = 1`) and whose
branch `"A"` holds `c7Rec`; the next append will evict `c7Rec` from the
history. -/
def c7State : ServerState :=
  { thought_history := [c7Rec], branches := [("A", [c7Rec])],
    available_tools := [], maxHistorySize := 1 }

/-- C7 witness: after an append that evicts `c7Rec` from the history,
branch `"A"` still holds it. -/
theorem c7_branches_never_pruned_witness :
    ∃ t, lookupBranch (processThought c7State (mkNumberedInput 2)).1.branches "A"
      = some ([c7Rec] ++ t) :=
  c7_branches_never_pruned c7State (mkNumberedInput 2) "A" [c7Rec] rfl

/-- C8: every successful call returns a payload built from the stored
record and the post-call state: the record's `thought_number`, its
post-normalization `total_thoughts` (`max thought_number total_thoughts`),
its `next_thought_needed` flag, the list of known branch ids, the
post-eviction history length, and the record's `current_step`,
`previous_steps`, and `remaining_steps` echoed back. -/
theorem c8_success_payload_contents (s : ServerState)
    (input : List (String × JValue)) (v : ThoughtData) (s' : ServerState)
    (p : SuccessPayload) (hv : validateThoughtData input = .ok v)
    (hp : processThought s input = (s', .ok p)) :
    ∃ r, s'.thought_history.getLast? = some r ∧
      p.thought_number = v.thought_number ∧
      p.total_thoughts = max v.thought_number v.total_thoughts ∧
      p.next_thought_needed = v.next_thought_needed ∧
      p.branches = s'.branches.map (fun kv => kv.1) ∧
      p.thought_history_length = s'.thought_history.length ∧
      p.current_step = r.current_step ∧
      p.previous_steps = r.previous_steps ∧
      p.remaining_steps = r.remaining_steps := by
  rw [processThought_ok s input v hv] at hp
  injection hp with hs' hp2
  injection hp2 with hp2
  subst hs'
  subst hp2
  refine ⟨recordOf input, trimHistory_append_getLast _ _ _,
    ?_, ?_, ?_, rfl, rfl, rfl, rfl, rfl⟩ <;>
    simp [recordOf_ok input v hv]

/-- C8 witness: the payload fields observed for the spec's worked example
`{thought: "start", thought_number: 1, total_thoughts: 3,
next_thought_needed: true}`. -/
theorem c8_success_payload_contents_witness :
    ∃ r, (processThought (initServer [] none)
        (mkNumberedInput 1)).1.thought_history.getLast? = some r ∧
      (1 : Int) = (1 : Int) ∧
      (3 : Int) = max 1 3 ∧
      true = true ∧
      ([] : List String) =
        (processThought (initServer [] none)
          (mkNumberedInput 1)).1.branches.map (fun kv => kv.1) ∧
      1 = (processThought (initServer [] none)
          (mkNumberedInput 1)).1.thought_history.length ∧
      (none : Option JValue) = r.current_step ∧
      (none : Option (List JValue)) = r.previous_steps ∧
      (none : Option (List JValue)) = r.remaining_steps := by
  have h := c8_success_payload_contents (initServer [] none)
    (mkNumberedInput 1)
    { thought := "t", thought_number := 1, total_thoughts := 3,
      next_thought_needed := true, is_revision := none,
      revises_thought := none, branch_from_thought := none,
      branch_id := none, needs_more_thoughts := none, current_step := none,
      previous_steps := none, remaining_steps := none }
    (processThought (initServer [] none) (mkNumberedInput 1)).1
    { thought_number := 1, total_thoughts := 3, next_thought_needed := true,
      branches := [], thought_history_length := 1, current_step := none,
      previous_steps := none, remaining_steps := none } rfl rfl
  exact h

/-- C10: branch indexing tests the branch fields for truthiness, not just
presence: a successful call whose input carries `branch_id = ""` (or
`branch_from_thought = 0`) creates or extends no branch sequence — the
branch index and the reported branch list stay exactly as before — while
the record still becomes the most recent history entry. -/
theorem c10_falsy_branch_fields_skip_indexing (s : ServerState)
    (input : List (String × JValue)) (s' : ServerState) (p : SuccessPayload)
    (hfalsy : jlookup input "branch_id" = some (.jstr "") ∨
              jlookup input "branch_from_thought" = some (.jnum 0))
    (hp : processThought s input = (s', .ok p)) :
    s'.branches = s.branches ∧
    p.branches = s.branches.map (fun kv => kv.1) ∧
    s'.thought_history.getLast? = some (recordOf input) := by
  obtain ⟨v, hv⟩ := processThought_ok_inv s input s' p hp
  rw [processThought_ok s input v hv] at hp
  injection hp with hs' hp2
  injection hp2 with hp2
  subst hs'
  subst hp2
  obtain ⟨hbid, hbft, -⟩ := validateThoughtData_fields input v hv
  have hskip : updateBranches s.branches (recordOf input) = s.branches := by
    apply updateBranches_skip
    rcases hfalsy with h | h
    · right
      rw [recordOf_ok input v hv]
      simp only [aggregateStep_fields, normalizeTotal_fields]
      rw [hbid, h]
      rfl
    · left
      rw [recordOf_ok input v hv]
      simp only [aggregateStep_fields, normalizeTotal_fields]
      rw [hbft, h]
      rfl
  exact ⟨hskip, by rw [hskip], trimHistory_append_getLast _ _ _⟩

/-- Input for the C10 witness: both branch fields present, but
`branch_id` is the empty string. -/
def c10Input : List (String × JValue) :=
  [("thought", .jstr "b"), ("thought_number", .jnum 2),
   ("total_thoughts", .jnum 3), ("next_thought_needed", .jbool false),
   ("branch_from_thought", .jnum 3), ("branch_id", .jstr "")]

/-- C10 witness: the `branch_id = ""` record is stored in history but
indexes no branch. -/
theorem c10_falsy_branch_fields_skip_indexing_witness :
    (processThought (initServer [] none) c10Input).1.branches =
      (initServer [] none).branches ∧
    ([] : List String) = (initServer [] none).branches.map (fun kv => kv.1) ∧
    (processThought (initServer [] none) c10Input).1.thought_history.getLast?
      = some (recordOf c10Input) :=
  c10_falsy_branch_fields_skip_indexing (initServer [] none) c10Input
    (processThought (initServer [] none) c10Input).1
    { thought_number := 2, total_thoughts := 3, next_thought_needed := false,
      branches := [], thought_history_length := 1, current_step := none,
      previous_steps := none, remaining_steps := none }
    (Or.inl rfl) rfl
